import Mathlib

/-!
Verification of the bridge core of the claude-in-factorio repository.

The Python sources under `bridge/` are shallowly embedded here:

* strings are `List Char` (Python `str`), raw byte strings are `List Nat`
  with each byte below 256;
* `rcon.py` : `lua_long_string`, the RCON packet encoder/decoder
  (`_send_packet` / `_recv_packet`) and the correlation-id counter
  `_next_id`, including the reconnect path of `execute`;
* `transport.py` : `InputWatcher.poll`, with `json.loads` and the
  `msg.get("message")` truthiness test abstracted as parameters
  (they are Python standard library / dict operations, not repository code);
* `pipe.py` : `parse_response`, `sanitize_response`, `load_session`,
  `save_session`, and the post-spawn part of `handle_message`
  (the subprocess outcome — the parsed stream lines, the exit code and the
  stderr text — is the input of the embedded function).

Python `str.strip` / regex `\s` are modelled over their ASCII whitespace
set, which covers every string the bridge produces or parses.
-/

/-! ## rcon.py : Lua long-bracket escaping (`lua_long_string`) -/

/-- The closing delimiter `]` ++ `"="*level` ++ `]` tested by the loop in
`lua_long_string`. -/
def closeDelim (level : Nat) : List Char :=
  ']' :: (List.replicate level '=' ++ [']'])

/-- The opening delimiter `[` ++ `"="*level` ++ `[`. -/
def openDelim (level : Nat) : List Char :=
  '[' :: (List.replicate level '=' ++ ['['])

/-- The `while f']{"=" * level}]' in text: level += 1` loop of
`lua_long_string`, with explicit fuel.  Python `in` on strings is substring
containment, embedded as `List.IsInfix`. -/
def luaLevelLoop (text : List Char) : Nat → Nat → Nat
  | 0, level => level
  | fuel + 1, level =>
    if closeDelim level <:+: text then luaLevelLoop text fuel (level + 1) else level

/-- The auto-detected bracket level of `lua_long_string`.  `text.length + 1`
units of fuel always suffice: the delimiter at level `text.length` is longer
than `text`, so it cannot occur in it. -/
def luaLevel (text : List Char) : Nat :=
  luaLevelLoop text (text.length + 1) 0

/-- `lua_long_string`: wrap text in a Lua long bracket string with
auto-detected level (`f"[{eq}[{text}]{eq}]"`). -/
def lua_long_string (text : List Char) : List Char :=
  openDelim (luaLevel text) ++ text ++ closeDelim (luaLevel text)

/-- Stripping the opening and closing delimiters of level `level` from a
wrapped string: drop the `level + 2` opening characters and keep everything
up to the `level + 2` closing ones. -/
def unwrapLong (level : Nat) (s : List Char) : List Char :=
  (s.drop (level + 2)).take (s.length - (2 * level + 4))

/-! ## rcon.py : packet framing (`_send_packet` / `_recv_packet`) -/

/-- Little-endian 4-byte encoding of a 32-bit value (`struct.pack("<i", n)`
for the non-negative values the client produces). -/
def le32 (n : Nat) : List Nat :=
  [n % 256, n / 256 % 256, n / 65536 % 256, n / 16777216 % 256]

/-- Little-endian 4-byte decoding (`struct.unpack("<i", bs)`; the signed and
unsigned readings agree below `2 ^ 31`, which the framing theorems assume). -/
def readLE32 (bs : List Nat) : Nat :=
  bs.getD 0 0 + 256 * bs.getD 1 0 + 65536 * bs.getD 2 0 + 16777216 * bs.getD 3 0

/-- `RCONClient._send_packet`: `size = 4 + 4 + len(body_bytes) + 1 + 1` and the
frame is `struct.pack("<iii", size, req_id, packet_type) + body + b"\x00\x00"`.
The payload is its UTF-8 byte sequence. -/
def sendPacket (reqId packetType : Nat) (body : List Nat) : List Nat :=
  le32 (4 + 4 + body.length + 1 + 1) ++ le32 reqId ++ le32 packetType ++ body ++ [0, 0]

/-- `RCONClient._recv_packet`: read a 4-byte size, read `size` bytes, and take
the correlation id from bytes 0-4, the type from bytes 4-8 and the body from
`data[8:-2]`.  `none` models `_recv_bytes` failing for lack of bytes. -/
def recvPacket (stream : List Nat) : Option (Nat × Nat × List Nat) :=
  if 4 ≤ stream.length then
    let size := readLE32 (stream.take 4)
    let rest := stream.drop 4
    if size ≤ rest.length then
      let data := rest.take size
      some (readLE32 (data.take 4), readLE32 ((data.drop 4).take 4),
        (data.drop 8).dropLast.dropLast)
    else none
  else none

/-! ## rcon.py : correlation ids across connections

`RCONClient` keeps one `_request_id` counter for the whole object;
`_connect` (also when called from the reconnect path of `execute`) does not
reset it.  `RconTrace` records the counter together with the frame ids sent,
grouped by connection. -/

structure RconTrace where
  requestId : Nat
  conns : List (List Nat)
  deriving DecidableEq, Repr

/-- Append a frame id to the current (last) connection. -/
def appendLast : List (List Nat) → Nat → List (List Nat)
  | [], i => [[i]]
  | [c], i => [c ++ [i]]
  | c :: c2 :: cs, i => c :: appendLast (c2 :: cs) i

/-- `_send_packet`: `_next_id` increments `_request_id` and the frame carries
the new id on the current connection. -/
def sendFrame (s : RconTrace) : RconTrace × Nat :=
  (⟨s.requestId + 1, appendLast s.conns (s.requestId + 1)⟩, s.requestId + 1)

/-- `_connect`: open a fresh connection (a new frame group) and send the
authentication frame on it; `_request_id` is not reset. -/
def openConn (s : RconTrace) : RconTrace :=
  (sendFrame ⟨s.requestId, s.conns ++ [[]]⟩).1

/-- `__init__`: `_request_id = 0`, then `_connect`. -/
def initClient : RconTrace := openConn ⟨0, []⟩

/-- `execute`: one command frame on success; on failure, the command frame
attempt (its id is consumed by `_next_id`), then `_connect` (auth frame on the
new connection), then the retried command frame. -/
def executeOp (s : RconTrace) (fail : Bool) : RconTrace :=
  if fail then (sendFrame (openConn (sendFrame s).1)).1 else (sendFrame s).1

/-- A client lifetime: construction followed by a sequence of `execute` calls,
each marked by whether its first attempt hits a connection error. -/
def runOps (ops : List Bool) : RconTrace := ops.foldl executeOp initClient

/-! ## transport.py : `InputWatcher.poll`

The watcher state is the `last_size` byte offset; the input file is
`none` (absent) or its character content.  `json.loads` and the
`msg.get("message")` truthiness test are Python standard-library / dict
operations, so they are abstracted as the parameters `parseJson`
(returning `none` on a `JSONDecodeError`) and `hasMessage`. -/

/-- Python whitespace (`str.strip` / regex `\s`), over ASCII. -/
def isPySpace (c : Char) : Bool :=
  c == ' ' || c == '\t' || c == '\n' || c == '\r' || c == '\x0B' || c == '\x0C'

/-- Python `str.strip()`: remove leading and trailing whitespace. -/
def pstrip (l : List Char) : List Char :=
  ((l.dropWhile isPySpace).reverse.dropWhile isPySpace).reverse

/-- `InputWatcher.poll`: return `[]` when the file is absent or has not grown
past `last_size`; otherwise read the new byte range, advance the offset to the
current size, and parse the new data with
`new_data.strip().split("\n")`, stripping each line, skipping empty ones,
dropping lines `json.loads` rejects and records without a truthy
`"message"` field. -/
def pollWatcher {α : Type} (parseJson : List Char → Option α) (hasMessage : α → Bool)
    (lastSize : Nat) (file : Option (List Char)) : Nat × List α :=
  match file with
  | none => (lastSize, [])
  | some content =>
    if content.length ≤ lastSize then (lastSize, [])
    else
      (content.length,
        ((pstrip (content.drop lastSize)).splitOn '\n').filterMap fun rawLine =>
          if pstrip rawLine = [] then none
          else
            match parseJson (pstrip rawLine) with
            | some msg => if hasMessage msg then some msg else none
            | none => none)

/-- Appending `lines` to a JSONL file: each line followed by a newline. -/
def appendLines (lines : List (List Char)) : List Char :=
  (lines.map (fun l => l ++ ['\n'])).flatten

/-! ## pipe.py : session persistence (`load_session` / `save_session`)

The session files only ever hold flat JSON objects with string values, so a
file's parsed content is an association list of string pairs (`none` models a
file `json.loads` rejects), and the disk is an association list from file
name to content.  `json.dumps`/`json.loads` round-trip such objects, so the
embedding works at the parsed-value level. -/

/-- A parsed flat JSON object: key/value string pairs; `jget` is `dict.get`. -/
def jget (fields : List (List Char × List Char)) (key : List Char) :
    Option (List Char) :=
  match fields with
  | [] => none
  | (k, v) :: rest => if k = key then some v else jget rest key

/-- The on-disk state: file name to parsed content (`none` = unparsable). -/
def DiskState := List (List Char × Option (List (List Char × List Char)))

/-- Overwrite (or create) a file — `Path.write_text`. -/
def fsWrite (fs : DiskState) (path : List Char)
    (content : Option (List (List Char × List Char))) : DiskState :=
  match fs with
  | [] => [(path, content)]
  | (p, c) :: rest =>
    if p = path then (path, content) :: rest else (p, c) :: fsWrite rest path content

/-- Look a file up; `none` means the file does not exist. -/
def fsRead (fs : DiskState) (path : List Char) :
    Option (Option (List (List Char × List Char))) :=
  match fs with
  | [] => none
  | (p, c) :: rest => if p = path then some c else fsRead rest path

/-- `_session_file(agent_name)`: `bridge/.session-{agent_name}.json`. -/
def sessionFilePath (agent : List Char) : List Char :=
  (".session-").toList ++ agent ++ (".json").toList

/-- `SESSIONS_FILE`: the old shared `bridge/.sessions.json`. -/
def sessionsFilePath : List Char := (".sessions.json").toList

/-- The object `save_session` serialises: `{"session_id": session_id}`. -/
def savedSessionObject (token : List Char) : List (List Char × List Char) :=
  [(("session_id").toList, token)]

/-- `save_session`: write the per-agent file as `json.dumps({"session_id":
session_id}) + "\n"`. -/
def save_session (fs : DiskState) (agent token : List Char) : DiskState :=
  fsWrite fs (sessionFilePath agent) (some (savedSessionObject token))

/-- `load_session`: prefer the per-agent file (`data.get("session_id")`,
`none` on parse failure), falling back to the old shared file
(`data.get(agent_name)`). -/
def load_session (fs : DiskState) (agent : List Char) : Option (List Char) :=
  match fsRead fs (sessionFilePath agent) with
  | some (some data) => jget data (("session_id").toList)
  | some none => none
  | none =>
    match fsRead fs sessionsFilePath with
    | some (some data) => jget data agent
    | some none => none
    | none => none

/-! ## pipe.py : `parse_response`

The section marker regex `\[color=([0-9.,]+)\]([A-Z][A-Z _]*?):\[/color\]\s*`
is deterministic: `[0-9.,]+` is greedy and cannot eat the following `]`, and
the lazy `[A-Z _]*?` must stop exactly where the literal `:` follows because
`:` is not in its class.  `finditer` scans left to right without overlap.
Labels produced by the marker consist of `A-Z`, space and underscore only, so
`label.upper()` is the identity and is dropped. -/

/-- Boolean prefix test on character lists. -/
def hasPrefixL : List Char → List Char → Bool
  | [], _ => true
  | _ :: _, [] => false
  | p :: ps, s :: ss => p == s && hasPrefixL ps ss

/-- Boolean substring test (Python `in`). -/
def hasInfixL (needle : List Char) : List Char → Bool
  | [] => hasPrefixL needle []
  | s@(_ :: rest) => hasPrefixL needle s || hasInfixL needle rest

/-- The `[0-9.,]` class of the color group. -/
def colorChar (c : Char) : Bool := c.isDigit || c == '.' || c == ','

/-- The `[A-Z]` class opening the label group. -/
def upperChar (c : Char) : Bool := 'A' ≤ c && c ≤ 'Z'

/-- The `[A-Z _]` class continuing the label group. -/
def labelChar (c : Char) : Bool := upperChar c || c == ' ' || c == '_'

/-- One attempt of the section marker regex at the start of `s`: on success,
the number of consumed characters (including the trailing `\s*`), the color
group and the label group. -/
def matchSection (s : List Char) : Option (Nat × List Char × List Char) :=
  if hasPrefixL ("[color=").toList s then
    let s1 := s.drop 7
    let g1 := s1.takeWhile colorChar
    if g1 = [] then none
    else
      match s1.drop g1.length with
      | ']' :: c0 :: s3 =>
        if upperChar c0 then
          let run := s3.takeWhile labelChar
          let s4 := s3.drop run.length
          if hasPrefixL (":[/color]").toList s4 then
            let ws := (s4.drop 9).takeWhile isPySpace
            some (7 + g1.length + 2 + run.length + 9 + ws.length, g1, c0 :: run)
          else none
        else none
      | _ => none
  else none

/-- One regex match: `m.start()`, `m.end()`, `m.group(1)`, `m.group(2)`. -/
structure SectionMatch where
  mStart : Nat
  mEnd : Nat
  color : List Char
  label : List Char
  deriving DecidableEq, Repr

/-- `finditer`: scan left to right, emitting non-overlapping matches. -/
def findSectionsAux : Nat → List Char → Nat → List SectionMatch
  | 0, _, _ => []
  | fuel + 1, s, pos =>
    match s with
    | [] => []
    | _ :: rest =>
      match matchSection s with
      | some (n, g1, g2) =>
        ⟨pos, pos + n, g1, g2⟩ :: findSectionsAux fuel (s.drop n) (pos + n)
      | none => findSectionsAux fuel rest (pos + 1)

/-- All section markers of a text (`_SECTION_RE.finditer(text)`).  Every match
consumes at least one character, so `text.length` units of fuel suffice. -/
def findSections (text : List Char) : List SectionMatch :=
  findSectionsAux text.length text 0

/-- The structured result of `parse_response` (`response.schema.json`):
header/footer are `(label, color, text)` triples, `data` keeps dict insertion
order. -/
structure ParsedResponse where
  header : Option (List Char × List Char × List Char) := none
  body : Option (List Char) := none
  actions : Option (List (List Char)) := none
  footer : Option (List Char × List Char × List Char) := none
  data : List (List Char × List Char × List Char) := []
  deriving DecidableEq, Repr

/-- `content.split("\n\n", 1)`: split at the first blank-line break, if any. -/
def splitFirstDoubleNl : List Char → Option (List Char × List Char)
  | '\n' :: '\n' :: rest => some ([], rest)
  | c :: rest => (splitFirstDoubleNl rest).map (fun p => (c :: p.1, p.2))
  | [] => none

/-- The ACTION-section body: each line `line.strip().lstrip("- ").strip()`,
empty results skipped. -/
def actionLines (content : List Char) : List (List Char) :=
  (content.splitOn '\n').filterMap fun line =>
    let l := pstrip ((pstrip line).dropWhile (fun c => c == '-' || c == ' '))
    if l = [] then none else some l

/-- `result["data"][label] = {...}`: Python dict insertion — an existing key
keeps its position and gets the new value, a new key is appended. -/
def dataInsert : List (List Char × List Char × List Char) → List Char → List Char →
    List Char → List (List Char × List Char × List Char)
  | [], label, color, text => [(label, color, text)]
  | (l, c, t) :: rest, label, color, text =>
    if l = label then (l, color, text) :: rest
    else (l, c, t) :: dataInsert rest label color text

/-- The labels `("FILED", "CLASSIFIED", "END")` closing a footer. -/
def footerLabels : List (List Char) :=
  [("FILED").toList, ("CLASSIFIED").toList, ("END").toList]

/-- The body of the `for i, m in enumerate(matches)` loop of `parse_response`
for one match, given the end of its content slice. -/
def applySection (text : List Char) (isFirst : Bool) (m : SectionMatch)
    (contentEnd : Nat) (acc : ParsedResponse) : ParsedResponse :=
  let content := pstrip ((text.take contentEnd).drop m.mEnd)
  let label := pstrip m.label
  if isFirst then
    match splitFirstDoubleNl content with
    | some (p0, p1) =>
      let acc1 := { acc with header := some (label, m.color, pstrip p0) }
      if pstrip p1 ≠ [] then { acc1 with body := some (pstrip p1) } else acc1
    | none => { acc with header := some (label, m.color, pstrip content) }
  else if hasInfixL (("ACTION").toList) label then
    let acts := actionLines content
    if acts ≠ [] then { acc with actions := some acts } else acc
  else if label ∈ footerLabels then
    { acc with footer := some (label, m.color, content) }
  else
    { acc with data := dataInsert acc.data label m.color content }

/-- Fold `applySection` over the matches; each content slice ends at the next
match's start (or at the end of the text). -/
def processSections (text : List Char) :
    List SectionMatch → Bool → ParsedResponse → ParsedResponse
  | [], _, acc => acc
  | m :: rest, isFirst, acc =>
    let contentEnd := match rest with
      | m2 :: _ => m2.mStart
      | [] => text.length
    processSections text rest false (applySection text isFirst m contentEnd acc)

/-- `parse_response`: no marker at all means `{"body": text}`; otherwise
process the sections and default the body to the header text (always present,
since the first match builds the header) or the whole text. -/
def parse_response (text : List Char) : ParsedResponse :=
  match findSections text with
  | [] => { body := some text }
  | m :: rest =>
    let r := processSections text (m :: rest) true {}
    if r.body = none then
      { r with body := some (match r.header with
          | some hd => hd.2.2
          | none => text) }
    else r

/-! ## pipe.py : `sanitize_response` and `handle_message`

`sanitize_response` applies three `re.sub` passes.  Each is deterministic:
`\*\*(.+?)\*\*` takes the shortest newline-free content before the next
literal `**`; `^#{1,3}\s+` (multiline) matches 1–3 hashes at a line start
followed by a greedy whitespace run; a raw fence is three backquotes, word
characters, and an optional newline.  `re.sub` restarts after each match and
advances one character after each failure. -/

/-- The backquote character (kept out of source literals). -/
def backquote : Char := Char.ofNat 96

/-- Find the earliest closing `**` for a bold span: the newline-free content
before it and the remainder after it. -/
def findBoldClose : List Char → Option (List Char × List Char)
  | '*' :: '*' :: rest => some ([], rest)
  | c :: rest =>
    if c == '\n' then none
    else (findBoldClose rest).map (fun p => (c :: p.1, p.2))
  | [] => none

/-- `re.sub(r'\*\*(.+?)\*\*', r'\1', text)` with explicit fuel. -/
def stripBoldAux : Nat → List Char → List Char
  | 0, s => s
  | _ + 1, [] => []
  | fuel + 1, c :: rest =>
    match c, rest with
    | '*', '*' :: s2 =>
      match s2 with
      | [] => c :: stripBoldAux fuel rest
      | d :: s3 =>
        if d == '\n' then c :: stripBoldAux fuel rest
        else
          match findBoldClose s3 with
          | some (con, r) => (d :: con) ++ stripBoldAux fuel r
          | none => c :: stripBoldAux fuel rest
    | _, _ => c :: stripBoldAux fuel rest

/-- `re.sub(r'^#{1,3}\s+', '', text, flags=re.MULTILINE)` with explicit fuel;
the flag tracks whether the position is a line start. -/
def stripHeadingsAux : Nat → Bool → List Char → List Char
  | 0, _, s => s
  | _ + 1, _, [] => []
  | fuel + 1, atStart, c :: rest =>
    if atStart then
      let hashes := (c :: rest).takeWhile (fun x => x == '#')
      let afterH := (c :: rest).drop hashes.length
      let ws := afterH.takeWhile isPySpace
      if 1 ≤ hashes.length ∧ hashes.length ≤ 3 ∧ ws ≠ [] then
        stripHeadingsAux fuel (ws.getLast? == some '\n') (afterH.drop ws.length)
      else
        c :: stripHeadingsAux fuel (c == '\n') rest
    else
      c :: stripHeadingsAux fuel (c == '\n') rest

/-- The fence-stripping pass with explicit fuel. -/
def stripFencesAux : Nat → List Char → List Char
  | 0, s => s
  | _ + 1, [] => []
  | fuel + 1, c :: rest =>
    if c == backquote then
      match rest with
      | c2 :: c3 :: s2 =>
        if c2 == backquote && c3 == backquote then
          let w := s2.takeWhile (fun x => x.isAlphanum || x == '_')
          let s3 := s2.drop w.length
          let s4 := match s3 with
            | '\n' :: t => t
            | _ => s3
          stripFencesAux fuel s4
        else c :: stripFencesAux fuel rest
      | _ => c :: stripFencesAux fuel rest
    else c :: stripFencesAux fuel rest

/-- `sanitize_response`: drop bold markers, heading markers and code fences,
then strip. -/
def sanitize_response (text : List Char) : List Char :=
  pstrip (stripFencesAux (stripHeadingsAux (stripBoldAux text.length text).length
    true (stripBoldAux text.length text)).length
    (stripHeadingsAux (stripBoldAux text.length text).length true
      (stripBoldAux text.length text)))

/-- One content block of an `assistant` stream message. -/
inductive ContentBlock where
  | text : List Char → ContentBlock
  | toolUse : List Char → ContentBlock
  | other : ContentBlock
  deriving DecidableEq, Repr

/-- One parsed line of the `claude` CLI's stream-json stdout, by its `type`
tag; `skip` covers blank/unparsable lines and unknown tags. -/
inductive StreamMsg where
  | assistant : List ContentBlock → StreamMsg
  | toolResult : StreamMsg
  | result : List Char → Option (List Char) → StreamMsg
  | skip : StreamMsg
  deriving DecidableEq, Repr

/-- The text blocks of an assistant message, in order. -/
def blockTexts (blocks : List ContentBlock) : List (List Char) :=
  blocks.filterMap fun b => match b with
    | ContentBlock.text s => some s
    | _ => none

/-- One iteration of the stdout loop of `handle_message`: accumulate text
parts; a `result` message appends its non-duplicate, non-empty result text and
sets `new_session_id = msg.get("session_id", session_id)` (the default is the
original `session_id` argument). -/
def streamStep (sessionId : Option (List Char))
    (acc : List (List Char) × Option (List Char)) (m : StreamMsg) :
    List (List Char) × Option (List Char) :=
  match m with
  | StreamMsg.assistant blocks => (acc.1 ++ blockTexts blocks, acc.2)
  | StreamMsg.result res sid =>
    ((if res ≠ [] ∧ res ∉ acc.1 then acc.1 ++ [res] else acc.1),
      (match sid with | some v => some v | none => sessionId))
  | _ => acc

/-- The accumulated `(text_parts, new_session_id)` after the whole stream. -/
def streamFold (sessionId : Option (List Char)) (stream : List StreamMsg) :
    List (List Char) × Option (List Char) :=
  stream.foldl (streamStep sessionId) ([], sessionId)

/-- Whether a stream message is a `result` carrying a `session_id` field. -/
def resultHasSid : StreamMsg → Bool
  | StreamMsg.result _ (some _) => true
  | _ => false

/-- The outcome of one external `claude` subprocess: its parsed stdout lines,
exit code and stderr text. -/
structure TurnOutcome where
  stream : List StreamMsg
  exitCode : Int
  stderrText : List Char
  deriving DecidableEq, Repr

/-- What one `handle_message` call relays and returns. -/
structure HandleResult where
  sentReply : List Char
  returnedSession : Option (List Char)
  deriving DecidableEq, Repr

/-- `handle_message` after the subprocess ran: if it exited non-zero with
non-empty stderr and no accumulated text, relay `"Error: " + stderr[:200]`
and return `new_session_id`; otherwise join the parts with blank lines (or the
placeholder), sanitize, optionally prefix the group-chat tag, relay, and
return `new_session_id`. -/
def handle_message (sessionId : Option (List Char)) (tname : List Char)
    (responseTo : Option (List Char)) (turn : TurnOutcome) : HandleResult :=
  let parts := (streamFold sessionId turn.stream).1
  let newSessionId := (streamFold sessionId turn.stream).2
  if turn.exitCode ≠ 0 ∧ turn.stderrText ≠ [] ∧ parts = [] then
    { sentReply := ("Error: ").toList ++ turn.stderrText.take 200
      returnedSession := newSessionId }
  else
    let reply0 := if parts = [] then ("(action complete)").toList
      else List.intercalate ("\n\n").toList parts
    let reply1 := sanitize_response reply0
    let reply2 := match responseTo with
      | some _ => ("[color=1,0.6,0.2]").toList ++ tname ++ (":[/color] ").toList ++ reply1
      | none => reply1
    { sentReply := reply2, returnedSession := newSessionId }

theorem closeDelim_length (level : Nat) : (closeDelim level).length = level + 2 := by
  simp [closeDelim]

theorem openDelim_length (level : Nat) : (openDelim level).length = level + 2 := by
  simp [openDelim]

theorem closeDelim_length_not_infix (text : List Char) :
    ¬ closeDelim text.length <:+: text := by
  intro h
  have := h.length_le
  rw [closeDelim_length] at this
  omega

theorem luaLevelLoop_spec (text : List Char) :
    ∀ (fuel l : Nat), (∃ k, k ≤ fuel ∧ ¬ closeDelim (l + k) <:+: text) →
      ¬ closeDelim (luaLevelLoop text fuel l) <:+: text
      ∧ l ≤ luaLevelLoop text fuel l
      ∧ ∀ m, l ≤ m → m < luaLevelLoop text fuel l → closeDelim m <:+: text := by
  intro fuel
  induction fuel with
  | zero =>
    intro l ⟨k, hk, hg⟩
    have hk0 : k = 0 := by omega
    subst hk0
    simp only [luaLevelLoop]
    exact ⟨by simpa using hg, le_refl l, fun m h1 h2 => absurd (lt_of_le_of_lt h1 h2) (lt_irrefl l)⟩
  | succ n ih =>
    intro l ⟨k, hk, hg⟩
    by_cases h : closeDelim l <:+: text
    · have hkpos : k ≠ 0 := by
        intro h0
        subst h0
        simp at hg
        exact hg h
      obtain ⟨k', rfl⟩ : ∃ k', k = k' + 1 := ⟨k - 1, by omega⟩
      have hrec := ih (l + 1) ⟨k', by omega, by
        have : l + 1 + k' = l + (k' + 1) := by omega
        rw [this]
        exact hg⟩
      simp only [luaLevelLoop, if_pos h]
      refine ⟨hrec.1, by omega, fun m h1 h2 => ?_⟩
      rcases Nat.eq_or_lt_of_le h1 with heq | hlt
      · rw [← heq]; exact h
      · exact hrec.2.2 m hlt h2
    · simp only [luaLevelLoop, if_neg h]
      exact ⟨h, le_refl l, fun m h1 h2 => absurd (lt_of_le_of_lt h1 h2) (lt_irrefl l)⟩

theorem luaLevel_not_infix (text : List Char) :
    ¬ closeDelim (luaLevel text) <:+: text :=
  (luaLevelLoop_spec text (text.length + 1) 0
    ⟨text.length, by omega, by simpa using closeDelim_length_not_infix text⟩).1

theorem luaLevel_min (text : List Char) :
    ∀ m < luaLevel text, closeDelim m <:+: text := fun m hm =>
  (luaLevelLoop_spec text (text.length + 1) 0
    ⟨text.length, by omega, by simpa using closeDelim_length_not_infix text⟩).2.2
    m (Nat.zero_le m) hm

/-- C1: Escaping round-trip law.  `lua_long_string s` is exactly
`[` ++ `"="*L` ++ `[` ++ s ++ `]` ++ `"="*L` ++ `]` where `L = luaLevel s`
is the minimal level whose closing delimiter does not occur in `s`
(the delimiter of every smaller level does occur), and stripping the
opening and closing delimiters of level `L` from the result yields `s`. -/
theorem lua_long_string_spec (s : List Char) :
    lua_long_string s = openDelim (luaLevel s) ++ s ++ closeDelim (luaLevel s)
    ∧ ¬ closeDelim (luaLevel s) <:+: s
    ∧ (∀ m < luaLevel s, closeDelim m <:+: s)
    ∧ unwrapLong (luaLevel s) (lua_long_string s) = s := by
  refine ⟨rfl, luaLevel_not_infix s, luaLevel_min s, ?_⟩
  unfold unwrapLong lua_long_string
  rw [List.append_assoc, List.drop_left' (openDelim_length (luaLevel s))]
  have hlen : (openDelim (luaLevel s) ++ (s ++ closeDelim (luaLevel s))).length
      - (2 * luaLevel s + 4) = s.length := by
    simp [openDelim_length, closeDelim_length]
    omega
  rw [hlen, List.take_left]

theorem le32_length (n : Nat) : (le32 n).length = 4 := rfl

theorem readLE32_le32 (n : Nat) (h : n < 2 ^ 32) : readLE32 (le32 n) = n := by
  simp [readLE32, le32, List.getD]
  omega

/-- C2: Framing law.  The length field of an encoded frame is
`10 + byte_length(payload)`, and decoding a stream that starts with an encoded
frame recovers the original correlation id, frame type and payload. -/
theorem rcon_packet_framing (reqId packetType : Nat) (body rest : List Nat)
    (hreq : reqId < 2 ^ 31) (htype : packetType < 2 ^ 31)
    (hbody : body.length + 10 < 2 ^ 31) :
    readLE32 ((sendPacket reqId packetType body).take 4) = 10 + body.length
    ∧ recvPacket (sendPacket reqId packetType body ++ rest)
      = some (reqId, packetType, body) := by
  have hsize : readLE32 (le32 (4 + 4 + body.length + 1 + 1)) = 4 + 4 + body.length + 1 + 1 :=
    readLE32_le32 _ (by omega)
  constructor
  · unfold sendPacket
    rw [List.append_assoc, List.append_assoc, List.append_assoc,
      List.take_left' (le32_length _), hsize]
    omega
  · simp only [recvPacket, sendPacket]
    rw [List.append_assoc, List.append_assoc, List.append_assoc, List.append_assoc]
    rw [List.take_left' (le32_length _), List.drop_left' (le32_length _), hsize]
    have hlen4 : 4 ≤ (le32 (4 + 4 + body.length + 1 + 1) ++
        (le32 reqId ++ (le32 packetType ++ (body ++ ([0, 0] ++ rest))))).length := by
      simp [le32]
    rw [if_pos hlen4]
    have hrest : 4 + 4 + body.length + 1 + 1 ≤
        (le32 reqId ++ (le32 packetType ++ (body ++ ([0, 0] ++ rest)))).length := by
      simp [le32]
      omega
    rw [if_pos hrest]
    have hdata : (le32 reqId ++ (le32 packetType ++ (body ++ ([0, 0] ++ rest)))).take
        (4 + 4 + body.length + 1 + 1)
        = le32 reqId ++ (le32 packetType ++ (body ++ [0, 0])) := by
      have : le32 reqId ++ (le32 packetType ++ (body ++ ([0, 0] ++ rest)))
          = (le32 reqId ++ (le32 packetType ++ (body ++ [0, 0]))) ++ rest := by
        simp [List.append_assoc]
      rw [this]
      refine List.take_left' ?_
      simp [le32]
      omega
    rw [hdata]
    rw [List.take_left' (le32_length _), List.drop_left' (le32_length _),
      List.take_left' (le32_length _)]
    have hdrop : (le32 reqId ++ (le32 packetType ++ (body ++ [0, 0]))).drop 8
        = body ++ [0, 0] := by
      have : le32 reqId ++ (le32 packetType ++ (body ++ [0, 0]))
          = (le32 reqId ++ le32 packetType) ++ (body ++ [0, 0]) := by
        simp [List.append_assoc]
      rw [this]
      exact List.drop_left' (by simp [le32])
    rw [hdrop]
    have hdl : (body ++ [0, 0]).dropLast.dropLast = body := by
      have h1 : body ++ [0, 0] = (body ++ [0]) ++ [0] := by simp
      rw [h1, List.dropLast_concat, List.dropLast_concat]
    rw [hdl, readLE32_le32 reqId (by omega), readLE32_le32 packetType (by omega)]

/-- Witness for C2 at a concrete frame. -/
theorem rcon_packet_framing_witness :
    readLE32 ((sendPacket 1 2 [104, 105]).take 4) = 10 + [104, 105].length
    ∧ recvPacket (sendPacket 1 2 [104, 105] ++ [9]) = some (1, 2, [104, 105]) :=
  rcon_packet_framing 1 2 [104, 105] [9] (by norm_num) (by norm_num) (by norm_num)

theorem flatten_appendLast (cs : List (List Nat)) (i : Nat) :
    (appendLast cs i).flatten = cs.flatten ++ [i] := by
  induction cs with
  | nil => simp [appendLast]
  | cons c cs ih =>
    cases cs with
    | nil => simp [appendLast]
    | cons c2 cs2 =>
      simp only [appendLast, List.flatten_cons, ih, List.append_assoc]

theorem executeOp_inv (s : RconTrace) (fail : Bool)
    (h : s.conns.flatten = List.range' 1 s.requestId) :
    (executeOp s fail).conns.flatten = List.range' 1 (executeOp s fail).requestId
    ∧ s.requestId ≤ (executeOp s fail).requestId := by
  have step : ∀ t : RconTrace, t.conns.flatten = List.range' 1 t.requestId →
      ((sendFrame t).1).conns.flatten = List.range' 1 ((sendFrame t).1).requestId := by
    intro t ht
    simp only [sendFrame, flatten_appendLast, ht]
    rw [List.range'_concat]
    simp
    omega
  have conn : ∀ t : RconTrace, t.conns.flatten = List.range' 1 t.requestId →
      (openConn t).conns.flatten = List.range' 1 (openConn t).requestId := by
    intro t ht
    refine step ⟨t.requestId, t.conns ++ [[]]⟩ ?_
    simpa using ht
  cases fail with
  | false =>
    exact ⟨step s h, by simp [executeOp, sendFrame]⟩
  | true =>
    refine ⟨step _ (conn _ (step s h)), ?_⟩
    simp [executeOp, sendFrame, openConn]
    omega

/-- C3 (amended): across the whole lifetime of a client, frame ids are
assigned sequentially starting at 1 — the concatenation of the per-connection
frame id lists is `1, 2, …, _request_id` — and the very first frame of the
first connection carries id 1.  A connection opened by the reconnect path
continues the sequence instead of restarting it. -/
theorem rcon_ids_sequential_lifetime (ops : List Bool) :
    (runOps ops).conns.flatten = List.range' 1 (runOps ops).requestId
    ∧ ((runOps ops).conns.flatten).head? = some 1 := by
  have main : ∀ (l : List Bool) (s : RconTrace),
      s.conns.flatten = List.range' 1 s.requestId → 1 ≤ s.requestId →
      (l.foldl executeOp s).conns.flatten = List.range' 1 (l.foldl executeOp s).requestId
      ∧ 1 ≤ (l.foldl executeOp s).requestId := by
    intro l
    induction l with
    | nil => intro s h h1; exact ⟨h, h1⟩
    | cons b bs ih =>
      intro s h h1
      have hstep := executeOp_inv s b h
      exact ih (executeOp s b) hstep.1 (le_trans h1 hstep.2)
  have base : initClient.conns.flatten = List.range' 1 initClient.requestId := by decide
  have h : (runOps ops).conns.flatten = List.range' 1 (runOps ops).requestId
      ∧ 1 ≤ (runOps ops).requestId := main ops initClient base (by decide)
  refine ⟨h.1, ?_⟩
  rw [h.1]
  obtain ⟨m, hm⟩ : ∃ m, (runOps ops).requestId = m + 1 :=
    ⟨(runOps ops).requestId - 1, by have := h.2; omega⟩
  rw [hm, List.range'_succ]
  rfl

/-- C3 counterexample: a client constructed and then hit by one failing
`execute` has per-connection frame ids `[[1, 2], [3, 4]]` — the connection
opened by the reconnect path starts at id 3, not 1, because `_connect` does
not reset `_request_id`. -/
theorem rcon_ids_restart_counterexample :
    (runOps [true]).conns = [[1, 2], [3, 4]]
    ∧ ¬ (∀ c ∈ (runOps [true]).conns, c = [] ∨ c.head? = some 1) := by decide

theorem intercalate_nl_singleton (a : List Char) : ['\n'].intercalate [a] = a := by
  simp [List.intercalate]

theorem intercalate_nl_cons (a b : List Char) (t : List (List Char)) :
    ['\n'].intercalate (a :: b :: t) = a ++ '\n' :: ['\n'].intercalate (b :: t) := by
  simp [List.intercalate, List.intersperse_cons_cons]

theorem appendLines_eq (lines : List (List Char)) (h : lines ≠ []) :
    appendLines lines = ['\n'].intercalate lines ++ ['\n'] := by
  induction lines with
  | nil => contradiction
  | cons a t ih =>
    cases t with
    | nil => simp [appendLines, intercalate_nl_singleton]
    | cons b t2 =>
      have hstep : appendLines (a :: b :: t2) = (a ++ ['\n']) ++ appendLines (b :: t2) := by
        simp [appendLines]
      rw [hstep, ih (by simp), intercalate_nl_cons]
      simp

theorem intercalate_nl_props (lines : List (List Char)) (hne : lines ≠ [])
    (hl : ∀ l ∈ lines, l ≠ [] ∧ l.dropWhile isPySpace = l
      ∧ l.reverse.dropWhile isPySpace = l.reverse) :
    ['\n'].intercalate lines ≠ []
    ∧ (['\n'].intercalate lines).dropWhile isPySpace = ['\n'].intercalate lines
    ∧ (['\n'].intercalate lines).reverse.dropWhile isPySpace
      = (['\n'].intercalate lines).reverse := by
  induction lines with
  | nil => contradiction
  | cons a t ih =>
    cases t with
    | nil =>
      rw [intercalate_nl_singleton]
      exact hl a (by simp)
    | cons b t2 =>
      obtain ⟨ha1, ha2, ha3⟩ := hl a (by simp)
      obtain ⟨hr1, hr2, hr3⟩ := ih (by simp) (fun l hlm => hl l (by simp [hlm]))
      rw [intercalate_nl_cons]
      refine ⟨by simp [ha1], ?_, ?_⟩
      · rw [List.dropWhile_append, ha2]
        simp [List.isEmpty_iff, ha1]
      · rw [List.reverse_append, List.reverse_cons, List.append_assoc]
        rw [List.dropWhile_append, hr3]
        have : (['\n'].intercalate (b :: t2)).reverse ≠ [] := by simp [hr1]
        simp [List.isEmpty_iff, this]

theorem pstrip_appendLines (lines : List (List Char)) (hne : lines ≠ [])
    (hl : ∀ l ∈ lines, l ≠ [] ∧ l.dropWhile isPySpace = l
      ∧ l.reverse.dropWhile isPySpace = l.reverse) :
    pstrip (appendLines lines) = ['\n'].intercalate lines := by
  obtain ⟨hX, hXl, hXr⟩ := intercalate_nl_props lines hne hl
  rw [appendLines_eq lines hne]
  unfold pstrip
  have h1 : (['\n'].intercalate lines ++ ['\n']).dropWhile isPySpace
      = ['\n'].intercalate lines ++ ['\n'] := by
    rw [List.dropWhile_append, hXl]
    simp [List.isEmpty_iff, hX]
  have h2 : (['\n'].intercalate lines ++ ['\n']).reverse.dropWhile isPySpace
      = (['\n'].intercalate lines).reverse := by
    rw [List.reverse_append]
    simp only [List.reverse_cons, List.reverse_nil, List.nil_append, List.singleton_append]
    rw [List.dropWhile_cons]
    simp only [isPySpace, if_pos]
    simpa using hXr
  rw [h1, h2, List.reverse_reverse]

theorem filterMap_of_forall₂ {α : Type} (parseJson : List Char → Option α)
    (hasMessage : α → Bool) (lines : List (List Char)) (recs : List α)
    (h : List.Forall₂ (fun line r => parseJson line = some r ∧ hasMessage r = true)
      lines recs) :
    (lines.filterMap fun line =>
      match parseJson line with
      | some msg => if hasMessage msg then some msg else none
      | none => none) = recs := by
  induction h with
  | nil => rfl
  | cons h1 h2 ih => simp [List.filterMap_cons, h1.1, h1.2, ih]

/-- C4: Tailer idempotence and ordering.  With the watcher caught up to the
file (`last_size = length`), polling returns the empty list and leaves the
state unchanged, so a second poll with no intervening growth is empty too;
after appending newline-terminated lines, the next poll advances the offset to
the new size and returns the per-line parse results in append order, dropping
lines `json.loads` rejects and records without a truthy message body without
aborting; when every appended line parses to a record with a message body, the
poll returns exactly those records in order. -/
theorem inputWatcher_poll_spec {α : Type} (parseJson : List Char → Option α)
    (hasMessage : α → Bool) (base : List Char) (lines : List (List Char))
    (hne : lines ≠ [])
    (hlines : ∀ l ∈ lines, l ≠ [] ∧ '\n' ∉ l
      ∧ l.dropWhile isPySpace = l ∧ l.reverse.dropWhile isPySpace = l.reverse) :
    pollWatcher parseJson hasMessage base.length (some base) = (base.length, [])
    ∧ pollWatcher parseJson hasMessage
        (pollWatcher parseJson hasMessage base.length (some base)).1 (some base)
      = (base.length, [])
    ∧ pollWatcher parseJson hasMessage base.length (some (base ++ appendLines lines))
      = ((base ++ appendLines lines).length,
          lines.filterMap fun line =>
            match parseJson line with
            | some msg => if hasMessage msg then some msg else none
            | none => none)
    ∧ ∀ recs : List α,
        List.Forall₂ (fun line r => parseJson line = some r ∧ hasMessage r = true)
          lines recs →
        (pollWatcher parseJson hasMessage base.length
          (some (base ++ appendLines lines))).2 = recs := by
  have hl' : ∀ l ∈ lines, l ≠ [] ∧ l.dropWhile isPySpace = l
      ∧ l.reverse.dropWhile isPySpace = l.reverse :=
    fun l hlm => ⟨(hlines l hlm).1, (hlines l hlm).2.2.1, (hlines l hlm).2.2.2⟩
  have c1 : pollWatcher parseJson hasMessage base.length (some base)
      = (base.length, []) := by
    simp [pollWatcher]
  have hD : appendLines lines ≠ [] := by
    rw [appendLines_eq lines hne]
    simp
  have c3 : pollWatcher parseJson hasMessage base.length (some (base ++ appendLines lines))
      = ((base ++ appendLines lines).length,
          lines.filterMap fun line =>
            match parseJson line with
            | some msg => if hasMessage msg then some msg else none
            | none => none) := by
    have hlen : ¬ ((base ++ appendLines lines).length ≤ base.length) := by
      have := List.length_pos.mpr hD
      simp only [List.length_append]
      omega
    simp only [pollWatcher, if_neg hlen]
    rw [List.drop_left, pstrip_appendLines lines hne hl']
    rw [List.splitOn_intercalate lines '\n' (fun l hlm => (hlines l hlm).2.1) hne]
    refine congrArg _ (List.filterMap_congr ?_)
    intro l hlm
    obtain ⟨h1, _, h3, h4⟩ := hlines l hlm
    have hps : pstrip l = l := by
      unfold pstrip
      rw [h3, h4, List.reverse_reverse]
    rw [hps, if_neg h1]
  refine ⟨c1, by rw [c1]; exact c1, c3, ?_⟩
  intro recs hrecs
  rw [c3]
  exact filterMap_of_forall₂ parseJson hasMessage lines recs hrecs

/-- Witness for C4: one appended line `{}`, an always-succeeding parser. -/
theorem inputWatcher_poll_spec_witness :
    (pollWatcher (fun l => some l) (fun _ => true) 0
        (some (appendLines [['{', '}']]))).2 = [['{', '}']] :=
  (inputWatcher_poll_spec (fun l => some l) (fun _ => true) [] [['{', '}']]
    (by decide) (by decide)).2.2.2 [['{', '}']]
    (List.Forall₂.cons ⟨rfl, rfl⟩ List.Forall₂.nil)

theorem pollWatcher_fst_mono {α : Type} (parseJson : List Char → Option α)
    (hasMessage : α → Bool) (lastSize : Nat) (file : Option (List Char)) :
    lastSize ≤ (pollWatcher parseJson hasMessage lastSize file).1 := by
  cases file with
  | none => simp [pollWatcher]
  | some content =>
    by_cases h : content.length ≤ lastSize
    · simp [pollWatcher, h]
    · simp only [pollWatcher, if_neg h]
      omega

/-- C10: the recorded offset never decreases — in one poll and across any
sequence of polls — and whenever the file is absent or its size is at most
the recorded offset (truncation/rotation), poll returns the empty list and
leaves the offset unchanged. -/
theorem inputWatcher_offset_monotone {α : Type} (parseJson : List Char → Option α)
    (hasMessage : α → Bool) (lastSize : Nat) (file : Option (List Char)) :
    lastSize ≤ (pollWatcher parseJson hasMessage lastSize file).1
    ∧ (∀ content, file = some content → content.length ≤ lastSize →
        pollWatcher parseJson hasMessage lastSize file = (lastSize, []))
    ∧ (file = none → pollWatcher parseJson hasMessage lastSize file = (lastSize, []))
    ∧ ∀ files : List (Option (List Char)),
        lastSize ≤ files.foldl
          (fun s f => (pollWatcher parseJson hasMessage s f).1) lastSize := by
  refine ⟨pollWatcher_fst_mono parseJson hasMessage lastSize file, ?_, ?_, ?_⟩
  · intro content hfile hlen
    subst hfile
    simp [pollWatcher, hlen]
  · intro hfile
    subst hfile
    simp [pollWatcher]
  · have mono : ∀ (files : List (Option (List Char))) (s : Nat),
        s ≤ files.foldl (fun s f => (pollWatcher parseJson hasMessage s f).1) s := by
      intro files
      induction files with
      | nil => intro s; simp
      | cons f fs ih =>
        intro s
        exact le_trans (pollWatcher_fst_mono parseJson hasMessage s f)
          (le_trans (ih _) (le_refl _))
    exact fun files => mono files lastSize

/-- Witness for C10 at a concrete truncated file. -/
theorem inputWatcher_offset_monotone_witness :
    pollWatcher (fun l => some l) (fun _ => true) 3 (some ['a', 'b']) = (3, []) :=
  (inputWatcher_offset_monotone (fun l => some l) (fun _ => true) 3
    (some ['a', 'b'])).2.1 ['a', 'b'] rfl (by decide)

theorem fsRead_fsWrite (fs : DiskState) (path : List Char)
    (content : Option (List (List Char × List Char))) :
    fsRead (fsWrite fs path content) path = some content := by
  induction fs with
  | nil => simp [fsWrite, fsRead]
  | cons pc rest ih =>
    obtain ⟨p, c⟩ := pc
    by_cases h : p = path
    · simp [fsWrite, h, fsRead]
    · simp [fsWrite, h, fsRead, ih]

/-- C5: Session continuity round-trip.  After `save_session(agent, token)`,
a fresh `load_session(agent)` reading only the persisted disk state returns
exactly that token, whatever was on disk before. -/
theorem session_roundtrip (fs : DiskState) (agent token : List Char) :
    load_session (save_session fs agent token) agent = some token := by
  unfold load_session save_session
  rw [fsRead_fsWrite]
  simp [savedSessionObject, jget]

/-- C6 (amended): `save_session` writes the agent's session file as a single
JSON object whose key is `"session_id"`, i.e. `{"session_id": token}`. -/
theorem session_file_format (fs : DiskState) (agent token : List Char) :
    fsRead (save_session fs agent token) (sessionFilePath agent)
      = some (some [(("session_id").toList, token)]) := by
  unfold save_session savedSessionObject
  exact fsRead_fsWrite fs (sessionFilePath agent) _

/-- C6 counterexample: the object `save_session` writes has no
`"continuation_token"` key — its only key is `"session_id"` — so the on-disk
format is not `{"continuation_token": token}`. -/
theorem session_file_key_counterexample :
    fsRead (save_session [] ['a'] ['t']) (sessionFilePath ['a'])
      = some (some [(("session_id").toList, ['t'])])
    ∧ jget (savedSessionObject ['t']) (("continuation_token").toList) = none
    ∧ savedSessionObject ['t'] ≠ [(("continuation_token").toList, ['t'])] := by
  refine ⟨session_file_format [] ['a'] ['t'], by decide, by decide⟩

/-- C7: the documented parsing example.  On the raw text
`"[color=1,0.8,0.2]STATUS:[/color] ok\n\n[color=0.6,0.8,1]ACTIONS:[/color]\n- mined ore\n- crafted gear"`,
`parse_response` yields the header `STATUS` with text `ok` and the actions
list `["mined ore", "crafted gear"]`. -/
theorem parse_response_example :
    (parse_response (("[color=1,0.8,0.2]STATUS:[/color] ok\n\n[color=0.6,0.8,1]ACTIONS:[/color]\n- mined ore\n- crafted gear").toList)).header
      = some (("STATUS").toList, ("1,0.8,0.2").toList, ("ok").toList)
    ∧ (parse_response (("[color=1,0.8,0.2]STATUS:[/color] ok\n\n[color=0.6,0.8,1]ACTIONS:[/color]\n- mined ore\n- crafted gear").toList)).actions
      = some [("mined ore").toList, ("crafted gear").toList] := by
  constructor
  · rfl
  · rfl

/-- C8: parsing fallback totality.  On any input without a section marker
(`finditer` finds nothing), `parse_response` returns exactly the record whose
only content is `body = text`; being a total function, it never throws. -/
theorem parse_response_fallback (text : List Char) (h : findSections text = []) :
    parse_response text = { body := some text } := by
  simp [parse_response, h]

/-- Witness for C8 at the documented input. -/
theorem parse_response_fallback_witness :
    parse_response (("plain text, no markers").toList)
      = { body := some (("plain text, no markers").toList) } :=
  parse_response_fallback (("plain text, no markers").toList) (by decide)

theorem streamFold_snd_invariant (sessionId : Option (List Char))
    (stream : List StreamMsg) (h : ∀ m ∈ stream, resultHasSid m = false) :
    (streamFold sessionId stream).2 = sessionId := by
  unfold streamFold
  suffices hgen : ∀ acc : List (List Char) × Option (List Char), acc.2 = sessionId →
      (stream.foldl (streamStep sessionId) acc).2 = sessionId by
    exact hgen ([], sessionId) rfl
  induction stream with
  | nil => intro acc hacc; exact hacc
  | cons m ms ih =>
    intro acc hacc
    refine ih (fun x hx => h x (by simp [hx])) (streamStep sessionId acc m) ?_
    cases m with
    | assistant blocks => exact hacc
    | toolResult => exact hacc
    | skip => exact hacc
    | result res sid =>
      cases sid with
      | none => rfl
      | some v => exact absurd (h (StreamMsg.result res (some v)) (by simp)) (by simp [resultHasSid])

/-- C9 (amended): worker error-path behaviour.  If the subprocess exits
non-zero with non-empty stderr and no accumulated text, `handle_message`
relays exactly `"Error: " + stderr[:200]` — a string of at most 207
characters — and returns the last session id observed on the stream, which is
the previous session id unchanged whenever no stream message carried a fresh
one; if some text was streamed, the error branch is not taken: the joined,
sanitized text is still relayed as the reply. -/
theorem handle_message_error_spec (sessionId : Option (List Char))
    (tname : List Char) (turn : TurnOutcome)
    (hrc : turn.exitCode ≠ 0) (hstderr : turn.stderrText ≠ []) :
    ((streamFold sessionId turn.stream).1 = [] →
      (handle_message sessionId tname none turn).sentReply
        = ("Error: ").toList ++ turn.stderrText.take 200
      ∧ (handle_message sessionId tname none turn).sentReply.length ≤ 207
      ∧ (handle_message sessionId tname none turn).returnedSession
        = (streamFold sessionId turn.stream).2
      ∧ ((∀ m ∈ turn.stream, resultHasSid m = false) →
          (handle_message sessionId tname none turn).returnedSession = sessionId))
    ∧ ((streamFold sessionId turn.stream).1 ≠ [] →
      (handle_message sessionId tname none turn).sentReply
        = sanitize_response
            (List.intercalate (("\n\n").toList) (streamFold sessionId turn.stream).1)
      ∧ (handle_message sessionId tname none turn).returnedSession
        = (streamFold sessionId turn.stream).2) := by
  constructor
  · intro hparts
    have hcond : turn.exitCode ≠ 0 ∧ turn.stderrText ≠ []
        ∧ (streamFold sessionId turn.stream).1 = [] := ⟨hrc, hstderr, hparts⟩
    simp only [handle_message, if_pos hcond]
    refine ⟨trivial, ?_, trivial, ?_⟩
    · have : (turn.stderrText.take 200).length ≤ 200 := by
        rw [List.length_take]
        omega
      simp only [List.length_append]
      have h7 : (("Error: ").toList).length = 7 := rfl
      omega
    · intro hnone
      exact streamFold_snd_invariant sessionId turn.stream hnone
  · intro hparts
    have hcond : ¬ (turn.exitCode ≠ 0 ∧ turn.stderrText ≠ []
        ∧ (streamFold sessionId turn.stream).1 = []) := by
      intro hc
      exact hparts hc.2.2
    simp only [handle_message, if_neg hcond, if_neg hparts]
    exact ⟨trivial, trivial⟩

/-- Witness for C9 at a concrete crash with empty stream. -/
theorem handle_message_error_spec_witness :
    (handle_message none ['a'] none ⟨[], 1, ['x']⟩).sentReply
      = ("Error: ").toList ++ (['x'] : List Char).take 200 :=
  ((handle_message_error_spec none ['a'] ⟨[], 1, ['x']⟩ (by decide) (by decide)).1
    (by decide)).1

/-- C9 counterexample: a run that exits non-zero with stderr `boom`, no text,
but whose stream carried a terminal `result` with session id `fresh`:
`handle_message` relays the error string yet returns the fresh session id —
it does not keep the previous session id `old`, so the fresh continuation
token is not ignored. -/
theorem handle_message_session_counterexample :
    (handle_message (some (("old").toList)) ['a'] none
        ⟨[StreamMsg.result [] (some (("fresh").toList))], 1, ("boom").toList⟩).sentReply
      = ("Error: boom").toList
    ∧ (handle_message (some (("old").toList)) ['a'] none
        ⟨[StreamMsg.result [] (some (("fresh").toList))], 1, ("boom").toList⟩).returnedSession
      = some (("fresh").toList)
    ∧ (some (("fresh").toList) : Option (List Char)) ≠ some (("old").toList) := by
  refine ⟨rfl, rfl, by decide⟩
